import Mathlib

/-!
Shallow embedding of the event-detecting ODE driver `odelay` from `pycse.py`.

Machine reals are modelled by exact rationals.  The external integrator
`scipy.integrate.odeint` is modelled by an oracle that, given the initial
state and the two requested sample points, returns the output matrix
(one row per sample point); the right-hand side `func` is absorbed into the
oracle, and is kept as a separate (dead, as in the source) argument of
`odelay` only because the source evaluates `func(y0, x0)` once and discards
the result.  Event callables are modelled as functions from (state, x) to
(value, isterminal, direction), exactly the tuple the source unpacks.
-/

namespace Pycse

/-- An event callable: `event(Y, t)` returns `(value, isterminal, direction)`
as unpacked at lines 87, 106 and 175 of the source. -/
abbrev Event := ℚ → ℚ → ℚ × Bool × ℤ

/-- Oracle for a call `odeint(func, f1, [x1, x2])`: from the initial state and
the two sample points it produces the output matrix, whose rows are the states
at the requested points.  The source reads `f2[-1][0]` (first component of the
last row) in the stepping loop and `f[-1][-1]` (last component of the last row)
in the refinement loop. -/
abbrev Oracle := ℚ → ℚ → ℚ → List (List ℚ)

/-- The local variables of the refinement `while` loop (lines 113-189):
`xPt, fPt, ePt` are the previous (left) point, `xLt, fLt, eLt` the last
(right) point, and `isterminal, direction` hold whatever the most recent
call of the event function returned. -/
structure LoopState where
  xPt : ℚ
  fPt : ℚ
  ePt : ℚ
  xLt : ℚ
  fLt : ℚ
  eLt : ℚ
  isterminal : Bool
  direction : ℤ
  deriving DecidableEq

/-- Outcome of one refinement loop: the event datum appended to `TE`/`YE`
(if any), the final value of `ISTERMINAL`, and a ghost flag recording whether
the loop stopped because `k` reached 100 (the flag is observational only and
is read by no definition). -/
structure RefineResult where
  collected : Option (ℚ × ℚ)
  isTerminal : Bool
  cap : Bool
  deriving DecidableEq

/-- The quintuple `X, sol, TE, YE, IE` returned by `odelay`. -/
structure OdeResult where
  X : List ℚ
  sol : List ℚ
  TE : List ℚ
  YE : List ℚ
  IE : List Nat
  deriving DecidableEq

/-- Either a normal return of `odelay`, or the `IndexError` that `xspan[0]`
raises on an empty grid. -/
inductive OdeReturn where
  | ok : OdeResult → OdeReturn
  | indexError : OdeReturn
  deriving DecidableEq

/-- Result of processing all events at one grid step: the new column of the
event value matrix, the updated event logs, and `some result` when a terminal
event cut the integration short (lines 193-199). -/
structure StepResult where
  enext : List ℚ
  TE : List ℚ
  YE : List ℚ
  IE : List Nat
  term : Option OdeResult
  deriving DecidableEq

/-- `np.abs` on the rational model; written with an `if` so that it evaluates
by kernel reduction. -/
def rabs (q : ℚ) : ℚ := if q < 0 then -q else q

/-- Lines 177-189: after evaluating the trial point, the source tests
`eLt * new_e > 0` (the value at the LAST point against the new value) and on
success replaces the previous point `xPt, fPt, ePt`, otherwise the last point
`xLt, fLt, eLt`.  The locals `isterminal` and `direction` were just rebound by
the `event` call at line 175 in either case. -/
def bracketUpdate (st : LoopState) (newX newF newE : ℚ) (it : Bool) (dir : ℤ) :
    LoopState :=
  if st.eLt * newE > 0 then
    { st with xPt := newX, fPt := newF, ePt := newE, isterminal := it, direction := dir }
  else
    { st with xLt := newX, fLt := newF, eLt := newE, isterminal := it, direction := dir }

/-- Lines 125-151: the bracket is resolved to the prescribed precision.
The direction filter compares the grid values `e[j, i+1]` and `e[j, i]`
(arguments `eprev`, `enext`) against the current `direction` local; the
`if`/`elif` chain of the source is written as one disjunction.  On acceptance
the current last point `(xLt, fLt)` is the collected event and `ISTERMINAL`
takes the current `isterminal` local; otherwise nothing is collected and
`ISTERMINAL` is `False`. -/
def collectExit (eprev enext : ℚ) (st : LoopState) : RefineResult :=
  if st.direction = 0 ∨ (enext > eprev ∧ st.direction = 1) ∨
      (enext < eprev ∧ st.direction = -1) then
    { collected := some (st.xLt, st.fLt), isTerminal := st.isterminal, cap := false }
  else
    { collected := none, isTerminal := false, cap := false }

/-- The `while k < 100` refinement loop (lines 121-189), with the remaining
iteration count `100 - k` as the recursion fuel.  The source branch
`if np.abs(new_x - xPt) < TOLERANCE: xLt = new_x; continue` leaves `k`
unchanged, so the very next pass re-enters with `k < 100` still true and
`np.abs(xLt - xPt) < TOLERANCE` now true, and exits through the collection
branch; that immediate exit is inlined here, which keeps the recursion
structural and is observationally identical. -/
def refineLoop (ev : Event) (stp : Oracle) (TOL eprev enext : ℚ) :
    Nat → LoopState → RefineResult
  | 0, _ => { collected := none, isTerminal := false, cap := true }
  | fuel + 1, st =>
    if rabs (st.xLt - st.xPt) < TOL then
      collectExit eprev enext st
    else
      let m := (st.ePt - st.eLt) / (st.xPt - st.xLt)
      let newX := -st.ePt / m + st.xPt
      if rabs (newX - st.xPt) < TOL then
        collectExit eprev enext { st with xLt := newX }
      else
        let newF := ((stp st.fPt st.xPt newX).getLastD []).getLastD 0
        let t := ev newF newX
        refineLoop ev stp TOL eprev enext fuel (bracketUpdate st newX newF t.1 t.2.1 t.2.2)

/-- Lines 143-145: on acceptance the refined point and the event index are
appended to `TE`, `YE`, `IE`; a rejected or cap-abandoned crossing appends
nothing. -/
def recordEvent (r : RefineResult) (j : Nat) (TE YE : List ℚ) (IE : List Nat) :
    List ℚ × List ℚ × List Nat :=
  match r.collected with
  | some (xe, fe) => (TE ++ [xe], YE ++ [fe], IE ++ [j])
  | none => (TE, YE, IE)

/-- Bookkeeping after one refinement loop (lines 142-199): append any accepted
event, and if `ISTERMINAL` is set, delete the last trajectory sample, append
the event point in its place and return the full quintuple immediately;
otherwise keep processing the remaining events through `cont`.  (In the
terminal case the returned event value column is dead, since the caller
short-circuits on `term`.) -/
def stepCollect (X sol : List ℚ) (r : RefineResult) (val : ℚ) (j : Nat)
    (TE YE : List ℚ) (IE : List Nat)
    (cont : List ℚ → List ℚ → List Nat → StepResult) : StepResult :=
  let e3 := recordEvent r j TE YE IE
  if r.isTerminal then
    { enext := [val], TE := e3.1, YE := e3.2.1, IE := e3.2.2,
      term := some
        { X := X.dropLast ++ [e3.1.getLastD 0], sol := sol.dropLast ++ [e3.2.1.getLastD 0],
          TE := e3.1, YE := e3.2.1, IE := e3.2.2 } }
  else
    { enext := val :: (cont e3.1 e3.2.1 e3.2.2).enext, TE := (cont e3.1 e3.2.1 e3.2.2).TE,
      YE := (cont e3.1 e3.2.1 e3.2.2).YE, IE := (cont e3.1 e3.2.1 e3.2.2).IE,
      term := (cont e3.1 e3.2.1 e3.2.2).term }

/-- Lines 104-199: the `for j, event in enumerate(events)` loop at grid step
`i`.  `X` and `sol` already contain the freshly appended sample; `eprev` holds
the column `e[., i]` of the event value matrix.  Each event is evaluated at
`(sol[i+1], X[i+1])`; a refinement runs exactly when
`e[j, i+1] * e[j, i] < 0`, started from the bracket `(X[-2], sol[-2])`,
`(X[-1], sol[-1])` with 100 iterations of fuel. -/
def processEvents (stp : Oracle) (TOL : ℚ) (i : Nat) (X sol : List ℚ) :
    List Event → Nat → List ℚ → List ℚ → List ℚ → List Nat → StepResult
  | [], _, _, TE, YE, IE => { enext := [], TE := TE, YE := YE, IE := IE, term := none }
  | ev :: evs, j, eprev, TE, YE, IE =>
    let t := ev (sol.getD (i + 1) 0) (X.getD (i + 1) 0)
    let ep := eprev.headD 0
    if t.1 * ep < 0 then
      stepCollect X sol
        (refineLoop ev stp TOL ep t.1 100
          { xPt := X.dropLast.getLastD 0, fPt := sol.dropLast.getLastD 0, ePt := ep,
            xLt := X.getLastD 0, fLt := sol.getLastD 0, eLt := t.1,
            isterminal := t.2.1, direction := t.2.2 })
        t.1 j TE YE IE
        (fun TE2 YE2 IE2 => processEvents stp TOL i X sol evs (j + 1) eprev.tail TE2 YE2 IE2)
    else
      let rest := processEvents stp TOL i X sol evs (j + 1) eprev.tail TE YE IE
      { enext := t.1 :: rest.enext, TE := rest.TE, YE := rest.YE, IE := rest.IE,
        term := rest.term }

/-- Lines 90-201: the grid stepping loop `for i, x1 in enumerate(xspan[0:-2])`
with `x2 = xspan[i+1]` and `f1 = sol[i]`.  Each step appends `x2` and
`f2[-1][0]` (component 0 of the last integrator row), processes all events,
and either returns the terminal result or carries the new event value column
to the next step. -/
def mainLoop (stp : Oracle) (evs : List Event) (TOL : ℚ) :
    List (ℚ × ℚ) → Nat → List ℚ → List ℚ → List ℚ → List ℚ → List ℚ → List Nat → OdeResult
  | [], _, X, sol, _, TE, YE, IE => { X := X, sol := sol, TE := TE, YE := YE, IE := IE }
  | (x1, x2) :: rest, i, X, sol, eprev, TE, YE, IE =>
    let f1 := sol.getD i 0
    let f2 := (stp f1 x1 x2).getLastD []
    let X2 := X ++ [x2]
    let sol2 := sol ++ [f2.headD 0]
    let pr := processEvents stp TOL i X2 sol2 evs 0 eprev TE YE IE
    match pr.term with
    | some res => res
    | none => mainLoop stp evs TOL rest (i + 1) X2 sol2 pr.enext pr.TE pr.YE pr.IE

/-- Lines 55-201: `odelay(func, y0, xspan, events, TOLERANCE)`.  An empty grid
raises `IndexError` at `xspan[0]`; no other validation of the grid is
performed.  `xf = xspan[-1]` and `f0 = func(y0, x0)` are computed and never
used, as in the source.  The event value matrix column 0 is seeded from
`event(y0, x0)` and the pair list realises `enumerate(xspan[0:-2])` with
`x2 = xspan[i+1]`. -/
def odelay (func : ℚ → ℚ → ℚ) (stp : Oracle) (y0 : ℚ) (xspan : List ℚ)
    (events : List Event) (TOL : ℚ) : OdeReturn :=
  match xspan with
  | [] => OdeReturn.indexError
  | x0 :: _ =>
    let _xf := xspan.getLastD 0
    let _f0 := func y0 x0
    let eprev := events.map (fun ev => (ev y0 x0).1)
    let pairs := (xspan.zip (xspan.drop 1)).dropLast
    OdeReturn.ok (mainLoop stp events TOL pairs 0 [x0] [y0] eprev [] [] [])

/-! Concrete right-hand sides, integrator oracles, events and loop states used
by the evaluations below. -/

/-- The right-hand side of the trivial ODE with derivative 0. -/
def funcZero : ℚ → ℚ → ℚ := fun _ _ => 0

/-- Integrator oracle for the trivial ODE: the state never changes, each of
the two output rows is the one-component initial state. -/
def stepConst : Oracle := fun f _ _ => [[f], [f]]

/-- Event whose value at the grid origin is -1 and elsewhere is 1 / (2 - x);
never terminal, direction 0.  Chosen so that the secant iteration started from
the bracket (0, -1), (1, 1) satisfies the invariant ePt = 1 / (2 - xPt),
making every trial step move xPt one unit left while xLt stays at 1: the
bracket width never falls below the tolerance and the 100-iteration cap is
exhausted. -/
def evCap : Event := fun _ x => (if x = 0 then -1 else 1 / (2 - x), false, 0)

/-- Integrator oracle with two-component state rows: the last output row is
[10, 20], so component 0 is 10 and the last component is 20. -/
def stepTwo : Oracle := fun f _ _ => [[f, f], [10, 20]]

/-- Event for the component-selection run: value -1 at x = 0, value 1 at
x = 1 (not terminal), and value -9 with the terminal flag set at every trial
point in between. -/
def evComp : Event := fun _ x =>
  if x = 0 then ((-1 : ℚ), false, (0 : ℤ)) else if x = 1 then (1, false, 0) else (-9, true, 0)

/-- Terminal event crossing zero between x = 0 and any later grid point. -/
def evTerm : Event := fun _ x => (if x = 0 then (-1 : ℚ) else 1, true, (0 : ℤ))

/-- Event with value x and constant direction +1. -/
def evUp : Event := fun _ x => (x, false, (1 : ℤ))

/-- Event that is identically zero. -/
def evZero : Event := fun _ _ => ((0 : ℚ), false, (0 : ℤ))

/-- Event that is identically one. -/
def evOne : Event := fun _ _ => ((1 : ℚ), false, (0 : ℤ))

/-- A refinement loop state bracketing a sign change: left value -1 at x = 0,
right value 2 at x = 3. -/
def stC2 : LoopState := ⟨0, 0, -1, 3, 0, 2, false, 0⟩

/-- Claim C1.  The spec asks for one trajectory sample per grid point and, on
a two point grid with no sign change, a two sample trajectory.  The code
iterates over `xspan[0:-2]`, so the final grid pair is never integrated: a two
point grid yields the single sample `[0]`, and a three point grid yields two
samples.  The unused `xf = xspan[-1]` and the docstring (integrate over
`tspan`) show the spec states the intent and the code has an off-by-one. -/
theorem odelay_skips_final_grid_pair :
    odelay funcZero stepConst 1 [0, 1] [] (1 / 1000000) =
      OdeReturn.ok ⟨[0], [1], [], [], []⟩ ∧
    odelay funcZero stepConst 1 [0, 1, 2] [] (1 / 1000000) =
      OdeReturn.ok ⟨[0, 1], [1, 1], [], [], []⟩ := by
  with_unfolding_all decide

/-- Claim C3, counterexample.  A sign change is detected between the first two
grid points (the event values there are -1 and 1), the event direction is 0 so
any candidate crossing would be accepted, yet after the refinement loop burns
all 100 iterations without converging the run records no event at all: the
crossing is discarded, never handed to the acceptance policy, contradicting
the claim that the best right-endpoint estimate is returned as a candidate and
recorded. -/
theorem odelay_cap_exhaustion_drops_event :
    (evCap 1 1).1 * (evCap 1 0).1 < 0 ∧
    odelay funcZero stepConst 1 [0, 1, 2] [evCap] (1 / 1000000) =
      OdeReturn.ok ⟨[0, 1], [1, 1], [], [], []⟩ := by
  set_option maxRecDepth 10000 in with_unfolding_all decide

/-- Claim C5, counterexample.  The claim says a grid with fewer than two
points fails with an InvalidArgument condition before any stepping; the code
performs no validation, and a one point grid returns normally with the initial
sample and empty event log. -/
theorem odelay_one_point_grid_ok :
    odelay funcZero stepConst 1 [0] [] (1 / 1000000) =
      OdeReturn.ok ⟨[0], [1], [], [], []⟩ := by
  with_unfolding_all decide

/-- Claim C5, amended.  `odelay` performs no input validation: a one point
grid returns only the initial sample, an empty grid raises `IndexError` at
`xspan[0]`, and a non-monotonic grid is accepted and integrated as given;
no InvalidArgument condition exists. -/
theorem odelay_no_input_validation :
    (∀ (func : ℚ → ℚ → ℚ) (stp : Oracle) (y0 x TOL : ℚ) (events : List Event),
        odelay func stp y0 [x] events TOL = OdeReturn.ok ⟨[x], [y0], [], [], []⟩) ∧
    (∀ (func : ℚ → ℚ → ℚ) (stp : Oracle) (y0 TOL : ℚ) (events : List Event),
        odelay func stp y0 [] events TOL = OdeReturn.indexError) ∧
    odelay funcZero stepConst 1 [0, 2, 1] [] (1 / 1000000) =
      OdeReturn.ok ⟨[0, 2], [1, 1], [], [], []⟩ :=
  ⟨fun _ _ _ _ _ _ => rfl, fun _ _ _ _ _ => rfl, by with_unfolding_all decide⟩

/-- The Python default argument `events=[]` is a single list object shared by
every call that omits `events`; this wrapper threads that object explicitly,
returning it alongside the result.  The body of `odelay` only reads `events`
(`len`, iteration), it contains no statement mutating it, so the cell comes
back unchanged. -/
def odelayDefaultCell (cell : List Event) (func : ℚ → ℚ → ℚ) (stp : Oracle)
    (y0 : ℚ) (xspan : List ℚ) (TOL : ℚ) : OdeReturn × List Event :=
  (odelay func stp y0 xspan cell TOL, cell)

/-- Claim C9.  Two successive calls of `odelay` with identical arguments,
where the second call receives the shared default-events object left behind by
the first, produce identical results, and the shared object is unchanged: no
mutable state persists between calls. -/
theorem odelay_repeat_call_identical (cell : List Event) (func : ℚ → ℚ → ℚ)
    (stp : Oracle) (y0 : ℚ) (xspan : List ℚ) (TOL : ℚ) :
    (odelayDefaultCell (odelayDefaultCell cell func stp y0 xspan TOL).2
        func stp y0 xspan TOL).1 =
      (odelayDefaultCell cell func stp y0 xspan TOL).1 ∧
    (odelayDefaultCell (odelayDefaultCell cell func stp y0 xspan TOL).2
        func stp y0 xspan TOL).2 = cell :=
  ⟨rfl, rfl⟩

/-- Helper: `collectExit` never reports cap exhaustion. -/
theorem collectExit_cap (eprev enext : ℚ) (st : LoopState) :
    (collectExit eprev enext st).cap = false := by
  unfold collectExit; split <;> rfl

/-- Helper: `collectExit` collects exactly when the direction filter accepts
the grid bracket. -/
theorem collectExit_collected_iff (eprev enext : ℚ) (st : LoopState) :
    (collectExit eprev enext st).collected ≠ none ↔
      (st.direction = 0 ∨ (enext > eprev ∧ st.direction = 1) ∨
        (enext < eprev ∧ st.direction = -1)) := by
  unfold collectExit; split <;> simp_all

/-- Helper: a rejecting `collectExit` leaves `ISTERMINAL` false. -/
theorem collectExit_none_isTerminal (eprev enext : ℚ) (st : LoopState)
    (h : (collectExit eprev enext st).collected = none) :
    (collectExit eprev enext st).isTerminal = false := by
  unfold collectExit at h ⊢
  by_cases hc : st.direction = 0 ∨ (enext > eprev ∧ st.direction = 1) ∨
      (enext < eprev ∧ st.direction = -1)
  · rw [if_pos hc] at h; simp at h
  · rw [if_neg hc]

/-- Helper: the bracket update always installs the direction just returned by
the event function. -/
theorem bracketUpdate_direction (st : LoopState) (newX newF newE : ℚ)
    (it : Bool) (dir : ℤ) :
    (bracketUpdate st newX newF newE it dir).direction = dir := by
  unfold bracketUpdate; split <;> rfl

/-- Helper: when nothing was collected, the event logs pass through
unchanged. -/
theorem recordEvent_none (r : RefineResult) (j : Nat) (TE YE : List ℚ)
    (IE : List Nat) (h : r.collected = none) :
    recordEvent r j TE YE IE = (TE, YE, IE) := by
  simp [recordEvent, h]

/-- Claim C2, counterexample.  A refinement step on the bracket with left
value -1 (at x = 0) and right value 2 (at x = 3), whose trial point evaluates
to -5: the claimed condition valueLeft * valueNew > 0 holds, yet the code
leaves the left endpoint at 0 and replaces the right endpoint with the trial
point, and the two endpoint values afterwards have the same sign, so the
sign-changing bracket is not preserved. -/
theorem bracketUpdate_left_rule_false :
    stC2.ePt * (-5 : ℚ) > 0 ∧
    (bracketUpdate stC2 1 0 (-5) false 0).xPt = 0 ∧
    (bracketUpdate stC2 1 0 (-5) false 0).xLt = 1 ∧
    stC2.ePt * stC2.eLt < 0 ∧
    (bracketUpdate stC2 1 0 (-5) false 0).ePt *
      (bracketUpdate stC2 1 0 (-5) false 0).eLt > 0 := by
  with_unfolding_all decide

/-- Claim C2, amended.  The update tests `eLt * new_e > 0`, the RIGHT endpoint
value against the trial value: on success the left endpoint is replaced,
otherwise the right endpoint is replaced; consequently, starting from a
sign-changing bracket (valueLeft * valueRight < 0), after any endpoint update
the two endpoint values have product at least 0 — the bracket is inverted by
the update, not preserved. -/
theorem bracketUpdate_right_value_rule (st : LoopState) (newX newF newE : ℚ)
    (it : Bool) (dir : ℤ) :
    (st.eLt * newE > 0 →
      bracketUpdate st newX newF newE it dir =
        { st with xPt := newX, fPt := newF, ePt := newE,
                  isterminal := it, direction := dir }) ∧
    (¬ st.eLt * newE > 0 →
      bracketUpdate st newX newF newE it dir =
        { st with xLt := newX, fLt := newF, eLt := newE,
                  isterminal := it, direction := dir }) ∧
    (st.ePt * st.eLt < 0 →
      0 ≤ (bracketUpdate st newX newF newE it dir).ePt *
          (bracketUpdate st newX newF newE it dir).eLt) := by
  refine ⟨fun h => by simp [bracketUpdate, h], fun h => by simp [bracketUpdate, h],
    fun hb => ?_⟩
  unfold bracketUpdate
  split
  · next h =>
    show 0 ≤ newE * st.eLt
    rw [mul_comm]
    exact h.le
  · next h =>
    show 0 ≤ st.ePt * newE
    have hle : st.eLt * newE ≤ 0 := not_lt.mp h
    rcases mul_neg_iff.mp hb with ⟨hPt, hLt⟩ | ⟨hPt, hLt⟩
    · rcases mul_nonpos_iff.mp hle with ⟨h1, h2⟩ | ⟨h1, h2⟩
      · exact absurd h1 (not_le.mpr hLt)
      · exact mul_nonneg hPt.le h2
    · rcases mul_nonpos_iff.mp hle with ⟨h1, h2⟩ | ⟨h1, h2⟩
      · have hn := mul_nonneg (neg_nonneg.mpr hPt.le) (neg_nonneg.mpr h2)
        rwa [neg_mul_neg] at hn
      · exact absurd h1 (not_le.mpr hLt)

/-- Witness for the amended C2 rule at concrete inputs. -/
theorem bracketUpdate_right_value_rule_witness :
    bracketUpdate stC2 1 0 7 false 0 =
      { stC2 with xPt := 1, fPt := 0, ePt := 7,
                  isterminal := false, direction := 0 } ∧
    bracketUpdate stC2 1 0 (-5) false 0 =
      { stC2 with xLt := 1, fLt := 0, eLt := -5,
                  isterminal := false, direction := 0 } ∧
    0 ≤ (bracketUpdate stC2 1 0 (-5) false 0).ePt *
        (bracketUpdate stC2 1 0 (-5) false 0).eLt :=
  ⟨(bracketUpdate_right_value_rule stC2 1 0 7 false 0).1 (by with_unfolding_all decide),
   (bracketUpdate_right_value_rule stC2 1 0 (-5) false 0).2.1 (by with_unfolding_all decide),
   (bracketUpdate_right_value_rule stC2 1 0 (-5) false 0).2.2 (by with_unfolding_all decide)⟩

/-- Claim C10.  The stepping loop appends `f2[-1][0]`, component 0 of the last
integrator row, to the trajectory, while the refinement loop and the event
record use `f[-1][-1]`, the last component.  With `stepTwo`, whose last row is
[10, 20], the appended trajectory sample is 10 and the refined event state is
20; the run detects a crossing, refines it through one trial point, accepts a
terminal event and so replaces the component-0 sample 10 by the last-component
value 20 in the final trajectory.  The last conjunct shows the component-0
append on an arbitrary oracle step. -/
theorem odelay_component_zero_vs_last :
    ((stepTwo 1 0 1).getLastD []).headD 0 = 10 ∧
    ((stepTwo 1 0 (1 / 2)).getLastD []).getLastD 0 = 20 ∧
    odelay funcZero stepTwo 1 [0, 1, 2] [evComp] (1 / 5) =
      OdeReturn.ok ⟨[0, -1/16], [1, 20], [-1/16], [20], [0]⟩ ∧
    (∀ (stp : Oracle) (TOL x1 x2 : ℚ) (i : Nat) (X sol TE YE : List ℚ)
        (IE : List Nat),
      mainLoop stp [] TOL [(x1, x2)] i X sol [] TE YE IE =
        ⟨X ++ [x2], sol ++ [((stp (sol.getD i 0) x1 x2).getLastD []).headD 0],
         TE, YE, IE⟩) :=
  ⟨by with_unfolding_all decide, by with_unfolding_all decide,
   by with_unfolding_all decide, fun _ _ _ _ _ _ _ _ _ _ => rfl⟩

/-- Claim C3, amended.  When the refinement loop exits because the iteration
cap is reached (the cap flag is set), it collects nothing and is never
terminal: the crossing is abandoned without being recorded and integration
continues, rather than the right-endpoint estimate being returned as a
candidate crossing. -/
theorem refineLoop_cap_collects_nothing (ev : Event) (stp : Oracle)
    (TOL eprev enext : ℚ) (fuel : Nat) (st : LoopState)
    (h : (refineLoop ev stp TOL eprev enext fuel st).cap = true) :
    (refineLoop ev stp TOL eprev enext fuel st).collected = none ∧
    (refineLoop ev stp TOL eprev enext fuel st).isTerminal = false := by
  revert h
  induction fuel generalizing st with
  | zero => intro h; exact ⟨rfl, rfl⟩
  | succ n ih =>
    intro h
    simp only [refineLoop] at h ⊢
    split_ifs at h ⊢ with h1 h2
    · rw [collectExit_cap] at h; exact absurd h (by simp)
    · rw [collectExit_cap] at h; exact absurd h (by simp)
    · exact ih _ h

/-- Witness for the amended C3 statement: the concrete cap-exhausting run. -/
theorem refineLoop_cap_collects_nothing_witness :
    (refineLoop evCap stepConst (1 / 1000000) (-1) 1 100
      ⟨0, 1, -1, 1, 1, 1, false, 0⟩).collected = none ∧
    (refineLoop evCap stepConst (1 / 1000000) (-1) 1 100
      ⟨0, 1, -1, 1, 1, 1, false, 0⟩).isTerminal = false :=
  refineLoop_cap_collects_nothing evCap stepConst (1 / 1000000) (-1) 1 100
    ⟨0, 1, -1, 1, 1, 1, false, 0⟩
    (by set_option maxRecDepth 10000 in with_unfolding_all decide)

/-- Helper for C4: whenever event processing produces an early (terminal)
return value, that value is the incoming trajectory with its last sample
replaced by the last recorded event point. -/
theorem processEvents_term_shape (stp : Oracle) (TOL : ℚ) (i : Nat)
    (X sol : List ℚ) :
    ∀ (evs : List Event) (j : Nat) (eprev TE YE : List ℚ) (IE : List Nat)
      (res : OdeResult),
      (processEvents stp TOL i X sol evs j eprev TE YE IE).term = some res →
      res.X = X.dropLast ++ [res.TE.getLastD 0] ∧
      res.sol = sol.dropLast ++ [res.YE.getLastD 0] := by
  intro evs
  induction evs with
  | nil => intro j eprev TE YE IE res h; simp [processEvents] at h
  | cons ev evs ih =>
    intro j eprev TE YE IE res h
    simp only [processEvents] at h
    split_ifs at h with hdet
    · simp only [stepCollect] at h
      split_ifs at h with hterm
      · dsimp only at h
        injection h with h2
        subst h2
        exact ⟨rfl, rfl⟩
      · exact ih _ _ _ _ _ _ h
    · exact ih _ _ _ _ _ _ h

/-- Claim C4.  If processing the events of the current step yields a terminal
result `res`, then the stepping loop returns `res` at once, for every
remaining portion of the grid (no further samples or event records are
appended); `res` is the trajectory before the step with the refined event
point appended in place of the overshoot sample, so its final sample equals
the last event record. -/
theorem mainLoop_terminal_stops (stp : Oracle) (evs : List Event)
    (TOL x1 x2 : ℚ) (rest : List (ℚ × ℚ)) (i : Nat)
    (X sol eprev TE YE : List ℚ) (IE : List Nat) (res : OdeResult)
    (h : (processEvents stp TOL i (X ++ [x2])
        (sol ++ [((stp (sol.getD i 0) x1 x2).getLastD []).headD 0])
        evs 0 eprev TE YE IE).term = some res) :
    mainLoop stp evs TOL ((x1, x2) :: rest) i X sol eprev TE YE IE = res ∧
    res.X = X ++ [res.TE.getLastD 0] ∧
    res.sol = sol ++ [res.YE.getLastD 0] ∧
    res.X.getLastD 0 = res.TE.getLastD 0 ∧
    res.sol.getLastD 0 = res.YE.getLastD 0 := by
  have hshape := processEvents_term_shape stp TOL i (X ++ [x2])
    (sol ++ [((stp (sol.getD i 0) x1 x2).getLastD []).headD 0])
    evs 0 eprev TE YE IE res h
  have hX : res.X = X ++ [res.TE.getLastD 0] := by
    rw [hshape.1, List.dropLast_concat]
  have hsol : res.sol = sol ++ [res.YE.getLastD 0] := by
    rw [hshape.2, List.dropLast_concat]
  refine ⟨?_, hX, hsol, ?_, ?_⟩
  · simp only [mainLoop, h]
  · rw [hX, List.getLastD_concat]
  · rw [hsol, List.getLastD_concat]

/-- Witness for C4: a concrete terminal run; the loop is entered with one
further grid pair pending and returns without processing it. -/
theorem mainLoop_terminal_stops_witness :
    mainLoop stepConst [evTerm] 10 [(0, 1), (1, 2)] 0 [0] [1] [-1] [] [] [] =
      (⟨[0, 1], [1, 1], [1], [1], [0]⟩ : OdeResult) :=
  (mainLoop_terminal_stops stepConst [evTerm] 10 0 1 [(1, 2)] 0 [0] [1] [-1]
    [] [] [] ⟨[0, 1], [1, 1], [1], [1], [0]⟩ (by with_unfolding_all decide)).1

/-- Claim C7.  For an event function whose direction output is constantly
`d`, a refinement loop started with that direction collects a crossing
exactly when it resolves the bracket within the iteration cap and the
direction filter accepts: `d = 0`, or `d = 1` with the event value increasing
across the grid bracket, or `d = -1` with it decreasing; and a rejected
crossing contributes nothing (the event logs pass through unchanged and the
loop is not terminal, so stepping continues unaffected). -/
theorem refineLoop_direction_policy (ev : Event) (stp : Oracle)
    (TOL eprev enext : ℚ) (d : ℤ) (fuel : Nat) (st : LoopState) (j : Nat)
    (TE YE : List ℚ) (IE : List Nat)
    (hdir : ∀ f x, (ev f x).2.2 = d) (hst : st.direction = d) :
    ((refineLoop ev stp TOL eprev enext fuel st).collected ≠ none ↔
      (refineLoop ev stp TOL eprev enext fuel st).cap = false ∧
        (d = 0 ∨ (enext > eprev ∧ d = 1) ∨ (enext < eprev ∧ d = -1))) ∧
    ((refineLoop ev stp TOL eprev enext fuel st).collected = none →
      recordEvent (refineLoop ev stp TOL eprev enext fuel st) j TE YE IE =
        (TE, YE, IE) ∧
      (refineLoop ev stp TOL eprev enext fuel st).isTerminal = false) := by
  revert hst
  induction fuel generalizing st with
  | zero =>
    intro hst
    refine ⟨by simp [refineLoop], fun h => ⟨by simp [refineLoop, recordEvent], rfl⟩⟩
  | succ n ih =>
    intro hst
    simp only [refineLoop]
    split_ifs with h1 h2
    · constructor
      · rw [collectExit_collected_iff, collectExit_cap, hst]
        simp
      · intro hnone
        exact ⟨recordEvent_none _ _ _ _ _ hnone,
          collectExit_none_isTerminal _ _ _ hnone⟩
    · constructor
      · rw [collectExit_collected_iff, collectExit_cap]
        simp [hst]
      · intro hnone
        exact ⟨recordEvent_none _ _ _ _ _ hnone,
          collectExit_none_isTerminal _ _ _ hnone⟩
    · exact ih _ (by rw [bracketUpdate_direction]; exact hdir _ _)

/-- A loop state for the C7 witness: bracket from (0, -1) to (1, 2) with
direction +1 already recorded. -/
def stC7 : LoopState := ⟨0, 1, -1, 1, 1, 2, false, 1⟩

/-- Witness for C7 at a concrete input: direction +1 with the event value
increasing across the bracket. -/
theorem refineLoop_direction_policy_witness :
    (refineLoop evUp stepConst 10 (-1) 2 100 stC7).collected ≠ none ↔
      (refineLoop evUp stepConst 10 (-1) 2 100 stC7).cap = false ∧
        ((1 : ℤ) = 0 ∨ ((2 : ℚ) > -1 ∧ (1 : ℤ) = 1) ∨
          ((2 : ℚ) < -1 ∧ (1 : ℤ) = -1)) :=
  (refineLoop_direction_policy evUp stepConst 10 (-1) 2 1 100 stC7 0 [] [] []
    (fun _ _ => rfl) rfl).1

/-- Claim C8.  Processing an event at a grid step: when the product of the
new and the previous event value is at least 0 (in particular when either is
exactly 0), the step contributes only its event value to the matrix column
and invokes no refinement (logs and early return pass through untouched);
when the product is strictly negative, the step is exactly a refinement of
the bracket built from the last two samples, with 100 iterations of fuel. -/
theorem processEvents_strict_sign_flip (stp : Oracle) (TOL : ℚ) (i : Nat)
    (X sol : List ℚ) (ev : Event) (evs : List Event) (j : Nat)
    (eprev TE YE : List ℚ) (IE : List Nat) :
    (0 ≤ (ev (sol.getD (i + 1) 0) (X.getD (i + 1) 0)).1 * eprev.headD 0 →
      processEvents stp TOL i X sol (ev :: evs) j eprev TE YE IE =
        ⟨(ev (sol.getD (i + 1) 0) (X.getD (i + 1) 0)).1 ::
            (processEvents stp TOL i X sol evs (j + 1) eprev.tail TE YE IE).enext,
          (processEvents stp TOL i X sol evs (j + 1) eprev.tail TE YE IE).TE,
          (processEvents stp TOL i X sol evs (j + 1) eprev.tail TE YE IE).YE,
          (processEvents stp TOL i X sol evs (j + 1) eprev.tail TE YE IE).IE,
          (processEvents stp TOL i X sol evs (j + 1) eprev.tail TE YE IE).term⟩) ∧
    ((ev (sol.getD (i + 1) 0) (X.getD (i + 1) 0)).1 * eprev.headD 0 < 0 →
      processEvents stp TOL i X sol (ev :: evs) j eprev TE YE IE =
        stepCollect X sol
          (refineLoop ev stp TOL (eprev.headD 0)
            (ev (sol.getD (i + 1) 0) (X.getD (i + 1) 0)).1 100
            ⟨X.dropLast.getLastD 0, sol.dropLast.getLastD 0, eprev.headD 0,
              X.getLastD 0, sol.getLastD 0,
              (ev (sol.getD (i + 1) 0) (X.getD (i + 1) 0)).1,
              (ev (sol.getD (i + 1) 0) (X.getD (i + 1) 0)).2.1,
              (ev (sol.getD (i + 1) 0) (X.getD (i + 1) 0)).2.2⟩)
          (ev (sol.getD (i + 1) 0) (X.getD (i + 1) 0)).1 j TE YE IE
          (fun TE2 YE2 IE2 =>
            processEvents stp TOL i X sol evs (j + 1) eprev.tail TE2 YE2 IE2)) := by
  constructor
  · intro h
    simp only [processEvents]
    rw [if_neg (not_lt.mpr h)]
  · intro h
    simp only [processEvents]
    rw [if_pos h]

/-- Witness for C8: an event value that is exactly zero at the new grid point
is not flagged (only the value column grows), and a strictly negative product
runs the refinement, here recording one event. -/
theorem processEvents_strict_sign_flip_witness :
    processEvents stepConst 1 0 [0, 1] [1, 1] [evZero] 0 [5] [] [] [] =
      (⟨[0], [], [], [], none⟩ : StepResult) ∧
    processEvents stepConst 10 0 [0, 1] [1, 1] [evOne] 0 [-1] [] [] [] =
      (⟨[1], [1], [1], [0], none⟩ : StepResult) := by
  constructor
  · have h1 := (processEvents_strict_sign_flip stepConst 1 0 [0, 1] [1, 1]
      evZero [] 0 [5] [] [] []).1 (by with_unfolding_all decide)
    exact h1.trans (by with_unfolding_all decide)
  · have h2 := (processEvents_strict_sign_flip stepConst 10 0 [0, 1] [1, 1]
      evOne [] 0 [-1] [] [] []).2 (by with_unfolding_all decide)
    exact h2.trans (by with_unfolding_all decide)

end Pycse
